import Mathlib

/-!
Verification of the in-browser AI code builder: the streaming
file-demultiplexer of the submission handler, the formatter gateway, the
persisted-state loader and the active-file-pointer maintenance.  Strings
are modelled as `List Char`; the demultiplexer state mirrors the local
variables of the submission handler (`currentFileName`, `buffer`)
together with the File Set.  External effectful collaborators (the
pretty-printer, JSON parsing) are parameters returning `Option`/`Except`
values, a failure standing for a thrown exception.
-/

namespace CodeGen

abbrev Str := List Char

/-- ECMAScript whitespace characters relevant to `String.prototype.trim`. -/
def isWS (c : Char) : Bool :=
  c = ' ' || c = '\t' || c = '\n' || c = '\r' || c = '\x0b' || c = '\x0c' || c = ' '

/-- JavaScript `String.prototype.trim`: strip whitespace from both ends. -/
def jsTrim (s : Str) : Str :=
  ((s.dropWhile isWS).reverse.dropWhile isWS).reverse

inductive FileType where
  | file
  | folder
deriving Repr, DecidableEq

/-- `path: newFileName.includes('/') ? newFileName.substring(0, newFileName.lastIndexOf('/')) : ''` -/
def pathOf (n : Str) : Str :=
  if '/' ∈ n then ((n.reverse.dropWhile (fun c => c ≠ '/')).drop 1).reverse else []

/-- `FileData`: `{ fileName, content, type, path }` as in the source. -/
structure FileData where
  fileName : Str
  content : Str
  ftype : FileType
  path : Str
deriving Repr, DecidableEq

/-- The fresh record built when a marker names an unseen file. -/
def mkFileData (n : Str) : FileData :=
  { fileName := n, content := [], ftype := FileType.file, path := pathOf n }

/-- `prevFiles.map(f => f.fileName === name ? { ...f, content: f.content + text } : f)` -/
def appendToFile (files : List FileData) (name : Str) (text : Str) : List FileData :=
  files.map fun f => if f.fileName = name then { f with content := f.content ++ text } else f

/-- The file-marker token `'>>>FILE:'`. -/
def markerTok : Str := ">>>FILE:".data

/-- Stream parse state of the in-flight generation request: the File Set
plus the handler's local `currentFileName` and `buffer`. -/
structure DemuxState where
  files : List FileData
  currentFileName : Option Str
  buffer : Str
deriving Repr, DecidableEq

/-- Processing of one complete line, mirroring the body of the
`while ((lineEndIndex = buffer.indexOf('\n')) !== -1)` loop: a line starting
with the marker selects (and, when unseen, creates) the named file; other
lines are appended (plus `'\n'`) to the current file, or dropped when no
file has been selected yet. -/
def processLine (s : DemuxState) (line : Str) : DemuxState :=
  if markerTok.isPrefixOf line then
    let newFileName := jsTrim (line.drop markerTok.length)
    if newFileName ≠ [] then
      { s with
        currentFileName := some newFileName
        files :=
          if s.files.any (fun f => f.fileName = newFileName) then s.files
          else s.files ++ [mkFileData newFileName] }
    else s
  else
    match s.currentFileName with
    | some c => { s with files := appendToFile s.files c (line ++ ['\n']) }
    | none => s

/-- Split a buffer into its complete lines (each terminated by `'\n'`, the
terminator removed) and the trailing remainder after the last `'\n'`. -/
def extractLines : Str → List Str × Str
  | [] => ([], [])
  | c :: cs =>
    if c = '\n' then
      let r := extractLines cs
      ([] :: r.1, r.2)
    else
      let r := extractLines cs
      match r.1 with
      | [] => ([], c :: r.2)
      | l :: ls => ((c :: l) :: ls, r.2)

/-- One iteration of `for await (const chunk of stream)`: append the chunk
to the buffer, then consume every complete line. -/
def processChunk (s : DemuxState) (chunk : Str) : DemuxState :=
  let r := extractLines (s.buffer ++ chunk)
  { r.1.foldl processLine s with buffer := r.2 }

/-- End-of-stream flush: `if (currentFileName && buffer.length > 0)` append
the leftover partial line verbatim (no `'\n'` added). -/
def finishStream (s : DemuxState) : DemuxState :=
  match s.currentFileName with
  | some c =>
    if s.buffer.length > 0 then { s with files := appendToFile s.files c s.buffer } else s
  | none => s

/-- State at the start of `handleSubmit`: the existing File Set is kept
(all updates go through `setFiles(prevFiles => ...)`), no current file,
empty buffer. -/
def initDemux (files0 : List FileData) : DemuxState :=
  { files := files0, currentFileName := none, buffer := [] }

/-- Demultiplex a whole sequence of chunks, then flush. -/
def demux (files0 : List FileData) (chunks : List Str) : DemuxState :=
  finishStream (chunks.foldl processChunk (initDemux files0))

/-- The concrete two-file stream of the specification's example. -/
def exampleStream : Str := ">>>FILE: a.txt\nhello\nworld\n>>>FILE: b.txt\nfoo\n".data

/-- A marker line for file name `n`. -/
def mkMarkerLine (n : Str) : Str := markerTok ++ ' ' :: n

/-- Serialize a list of lines, each with its terminating `'\n'`. -/
def linesToStream (ls : List Str) : Str := (ls.map (fun l => l ++ ['\n'])).flatten

/-- `getParser` from `src/utils/formatter.ts`: formatting profile by extension. -/
def getParser (fileName : Str) : Option String :=
  if ".html".data.isSuffixOf fileName then some "html"
  else if ".css".data.isSuffixOf fileName then some "css"
  else if ".js".data.isSuffixOf fileName || ".jsx".data.isSuffixOf fileName
      || ".ts".data.isSuffixOf fileName || ".tsx".data.isSuffixOf fileName then some "babel"
  else none

/-- `formatCode` from `src/utils/formatter.ts`.  The pretty-printer is a
parameter; `none` stands for a thrown formatting error, which the
`try`/`catch` turns back into the original content.  The function is total:
it cannot raise. -/
def formatCode (prettierFmt : String → Str → Option Str) (fileName content : Str) : Str :=
  match getParser fileName with
  | none => content
  | some p =>
    if ".css".data.isSuffixOf fileName ∧ content.count '{' ≠ content.count '}' then content
    else if jsTrim content = [] ∨ (jsTrim content).length < 10 then content
    else
      match prettierFmt p content with
      | some formatted => formatted
      | none => content

/-- JSON values, the possible results of `JSON.parse`. -/
inductive JValue where
  | jnull
  | jbool (b : Bool)
  | jnum (n : Int)
  | jstr (s : String)
  | jarr (elems : List JValue)
  | jobj (fields : List (String × JValue))

/-- JavaScript `typeof` (note `typeof null === 'object'`). -/
def jsTypeof : JValue → String
  | .jnull => "object"
  | .jbool _ => "boolean"
  | .jnum _ => "number"
  | .jstr _ => "string"
  | .jarr _ => "object"
  | .jobj _ => "object"

/-- JavaScript property read `v[k]`: throws (`error`) on `null`, otherwise
yields the property value or `none` for `undefined`. -/
def getProp : JValue → String → Except Unit (Option JValue)
  | .jnull, _ => .error ()
  | .jobj fields, k => .ok ((fields.find? (fun kv => kv.1 = k)).map (fun kv => kv.2))
  | _, _ => .ok none

/-- `typeof v[k]` as a string, `'undefined'` for a missing property. -/
def typeofProp (v : JValue) (k : String) : Except Unit String := do
  let p ← getProp v k
  match p with
  | some w => pure (jsTypeof w)
  | none => pure "undefined"

/-- The element predicate of the loader's `parsed.every(...)`:
`typeof file === 'object' && typeof file.fileName === 'string' &&
typeof file.content === 'string'`, short-circuiting, and throwing when a
property of `null` is read. -/
def isValidFile (v : JValue) : Except Unit Bool := do
  if jsTypeof v ≠ "object" then return false
  let t1 ← typeofProp v "fileName"
  if t1 ≠ "string" then return false
  let t2 ← typeofProp v "content"
  return decide (t2 = "string")

/-- `Array.prototype.every` over `isValidFile`, propagating a throw. -/
def validateAll : List JValue → Except Unit Bool
  | [] => .ok true
  | v :: vs => do
    let b ← isValidFile v
    if b then validateAll vs else return false

/-- `Array.isArray(parsed) && parsed.every(...)` (short-circuiting). -/
def validateStored (v : JValue) : Except Unit Bool :=
  match v with
  | .jarr xs => validateAll xs
  | _ => .ok false

/-- The name/content fields of a persisted file record. -/
structure StoredFile where
  fileName : String
  content : String
deriving Repr, DecidableEq

/-- The string field `k` of an object's field list, if present. -/
def getStrField (fields : List (String × JValue)) (k : String) : Option String :=
  match (fields.find? (fun kv => kv.1 = k)).map (fun kv => kv.2) with
  | some (JValue.jstr s) => some s
  | _ => none

/-- The file records carried by a validated stored array. -/
def extractStored : JValue → List StoredFile
  | .jarr xs => xs.filterMap (fun v =>
      match v with
      | .jobj fields =>
        match getStrField fields "fileName", getStrField fields "content" with
        | some n, some c => some ⟨n, c⟩
        | _, _ => none
      | _ => none)
  | _ => []

/-- Substring test, JavaScript `String.prototype.includes`. -/
def containsSub (hay pat : Str) : Bool :=
  match hay with
  | [] => pat.isEmpty
  | _ :: t => pat.isPrefixOf hay || containsSub t pat

/-- `key.includes('code') || key.includes('project') || key.includes('ai')`. -/
def relatedKey (k : String) : Bool :=
  containsSub k.data "code".data || containsSub k.data "project".data
    || containsSub k.data "ai".data

/-- The `catch` path's key sweep: remove every related key. -/
def clearRelated (storage : List (String × String)) : List (String × String) :=
  storage.filter (fun kv => !(relatedKey kv.1))

/-- `localStorage.removeItem(k)`. -/
def removeKey (k : String) (storage : List (String × String)) : List (String × String) :=
  storage.filter (fun kv => kv.1 ≠ k)

/-- `localStorage.getItem(k)`. -/
def lookupKey (k : String) (storage : List (String × String)) : Option String :=
  (storage.find? (fun kv => kv.1 = k)).map (fun kv => kv.2)

/-- The `useState` initializer for `files`: read `'code-project'`, parse,
validate; on invalid structure remove the key; on a throw sweep all related
keys; always return a project (never raise). `parseJSON` is the external
`JSON.parse`, `error` standing for a thrown `SyntaxError`. -/
def loadProject (parseJSON : String → Except Unit JValue)
    (storage : List (String × String)) : List StoredFile × List (String × String) :=
  match lookupKey "code-project" storage with
  | none => ([], storage)
  | some saved =>
    match parseJSON saved with
    | .error _ => ([], clearRelated storage)
    | .ok parsed =>
      match validateStored parsed with
      | .error _ => ([], clearRelated storage)
      | .ok true => (extractStored parsed, storage)
      | .ok false => ([], removeKey "code-project" storage)

/-- Events delivered by the generation stream: a text chunk, or a thrown
transport/service error. -/
inductive StreamEvent where
  | chunk (text : Str)
  | failure (msg : String)

/-- The user-visible message built in the `catch` block. -/
def errorText (m : String) : String :=
  "Failed to generate code: " ++ m ++ ". Please check your API key and try again."

/-- The `try`/`catch` around the streaming loop: chunks are demultiplexed in
order; a failure aborts immediately (no flush, no retry, later events
ignored) and surfaces the error message; normal completion flushes the
buffer and surfaces no error. -/
def runStream : DemuxState → List StreamEvent → DemuxState × Option String
  | s, [] => (finishStream s, none)
  | s, StreamEvent.chunk t :: rest => runStream (processChunk s t) rest
  | s, StreamEvent.failure m :: _ => (s, some (errorText m))

/-- `newFiles[0]?.fileName || ''`. -/
def headFileName (files : List FileData) : Str :=
  match files.head? with
  | some f => f.fileName
  | none => []

/-- `handleDeleteFile` from `CodeWorkspace`: drop the record and, when the
deleted file was active, move the pointer to the first remaining file. -/
def handleDeleteFile (files : List FileData) (active target : Str) :
    List FileData × Str :=
  let newFiles := files.filter (fun f => f.fileName ≠ target)
  (newFiles, if active = target then headFileName newFiles else active)

/-- The pointer-revalidation effect run on every File Set change. -/
def revalidateActive (files : List FileData) (active : Str) : Str :=
  if files.any (fun f => f.fileName = active) then active else headFileName files

/-! ## Helper lemmas -/

theorem extractLines_no_nl (buf : Str) (h : '\n' ∉ buf) : extractLines buf = ([], buf) := by
  induction buf with
  | nil => rfl
  | cons c cs ih =>
    simp only [List.mem_cons, not_or] at h
    have hc : ¬ (c = '\n') := fun hc => h.1 hc.symm
    rw [extractLines, if_neg hc, ih h.2]

theorem extractLines_snd_no_nl (buf : Str) : '\n' ∉ (extractLines buf).2 := by
  induction buf with
  | nil => simp [extractLines]
  | cons c cs ih =>
    rw [extractLines]
    by_cases hc : c = '\n'
    · simpa [if_pos hc] using ih
    · simp only [if_neg hc]
      cases h1 : (extractLines cs).1 with
      | nil =>
        simp only [List.mem_cons, not_or]
        exact ⟨fun hn => hc hn.symm, ih⟩
      | cons l ls => simpa using ih

theorem extractLines_append (a b : Str) :
    extractLines (a ++ b) =
      ((extractLines a).1 ++ (extractLines ((extractLines a).2 ++ b)).1,
       (extractLines ((extractLines a).2 ++ b)).2) := by
  induction a with
  | nil => simp [extractLines]
  | cons c cs ih =>
    by_cases hc : c = '\n'
    · simp only [List.cons_append, extractLines, if_pos hc, List.append_eq]
      rw [ih]
    · simp only [List.cons_append, extractLines, if_neg hc, List.append_eq]
      rw [ih]
      cases h1 : (extractLines cs).1 with
      | nil =>
        simp only [h1, List.nil_append]
        cases h2 : (extractLines ((extractLines cs).2 ++ b)).1 with
        | nil => simp [extractLines, if_neg hc, h2]
        | cons l2 ls2 => simp [extractLines, if_neg hc, h2]
      | cons l ls => simp [h1]

theorem processLine_buffer (s : DemuxState) (b l : Str) :
    processLine { s with buffer := b } l = { processLine s l with buffer := b } := by
  unfold processLine
  cases hm : markerTok.isPrefixOf l <;> simp only [hm]
  · cases hcur : s.currentFileName <;> simp [hcur]
  · by_cases hn : jsTrim (l.drop markerTok.length) = [] <;> simp [hn]

theorem foldl_processLine_buffer (ls : List Str) (s : DemuxState) (b : Str) :
    ls.foldl processLine { s with buffer := b } = { ls.foldl processLine s with buffer := b } := by
  induction ls generalizing s with
  | nil => rfl
  | cons l ls ih => simp only [List.foldl_cons, processLine_buffer, ih]

theorem processChunk_append (s : DemuxState) (a b : Str) :
    processChunk s (a ++ b) = processChunk (processChunk s a) b := by
  rw [processChunk, processChunk, processChunk]
  rw [← List.append_assoc, extractLines_append (s.buffer ++ a) b]
  simp only [List.foldl_append, foldl_processLine_buffer]

theorem foldl_processChunk_flatten (chunks : List Str) (s : DemuxState) (h : '\n' ∉ s.buffer) :
    chunks.foldl processChunk s = processChunk s chunks.flatten := by
  induction chunks generalizing s with
  | nil =>
    rw [List.foldl_nil, List.flatten_nil, processChunk]
    simp [extractLines_no_nl _ h]
  | cons c cs ih =>
    rw [List.foldl_cons, ih _ (by rw [processChunk]; exact extractLines_snd_no_nl _),
      ← processChunk_append, List.flatten_cons]

theorem appendToFile_nil (fs : List FileData) (n : Str) : appendToFile fs n [] = fs := by
  unfold appendToFile
  induction fs with
  | nil => rfl
  | cons f fs ih =>
    rw [List.map_cons, ih]
    congr 1
    by_cases h : f.fileName = n
    · rw [if_pos h, List.append_nil]
    · rw [if_neg h]

theorem appendToFile_append (fs : List FileData) (n a b : Str) :
    appendToFile (appendToFile fs n a) n b = appendToFile fs n (a ++ b) := by
  unfold appendToFile
  rw [List.map_map]
  congr 1
  funext f
  by_cases h : f.fileName = n <;> simp [h, List.append_assoc]

theorem appendToFile_length (fs : List FileData) (n t : Str) :
    (appendToFile fs n t).length = fs.length := by
  simp [appendToFile]

theorem extractLines_line (l rest : Str) (h : '\n' ∉ l) :
    extractLines (l ++ '\n' :: rest) = (l :: (extractLines rest).1, (extractLines rest).2) := by
  induction l with
  | nil => simp [extractLines]
  | cons c cs ih =>
    simp only [List.mem_cons, not_or] at h
    have hc : ¬ (c = '\n') := fun e => h.1 e.symm
    rw [List.cons_append, extractLines, if_neg hc, ih h.2]

theorem extractLines_linesToStream (ls : List Str) (h : ∀ l ∈ ls, '\n' ∉ l) :
    extractLines (linesToStream ls) = (ls, []) := by
  induction ls with
  | nil => rfl
  | cons l ls ih =>
    rw [linesToStream, List.map_cons, List.flatten_cons, List.append_assoc]
    have hrw : ['\n'] ++ (ls.map (fun l => l ++ ['\n'])).flatten = '\n' :: linesToStream ls := rfl
    rw [hrw, extractLines_line _ _ (h l (List.mem_cons_self _ _)),
      ih (fun x hx => h x (List.mem_cons_of_mem _ hx))]

theorem routeAll (ls : List Str) (s : DemuxState) (c : Str)
    (hc : s.currentFileName = some c)
    (hls : ∀ l ∈ ls, markerTok.isPrefixOf l = false) :
    ls.foldl processLine s = { s with files := appendToFile s.files c (linesToStream ls) } := by
  induction ls generalizing s with
  | nil =>
    rw [List.foldl_nil]
    show s = { s with files := appendToFile s.files c (linesToStream []) }
    rw [show linesToStream [] = [] from rfl, appendToFile_nil]
  | cons l ls ih =>
    rw [List.foldl_cons, processLine]
    simp only [hls l (List.mem_cons_self _ _), Bool.false_eq_true, if_false, hc]
    rw [ih _ rfl (fun x hx => hls x (List.mem_cons_of_mem _ hx))]
    simp only [appendToFile_append]
    rw [show linesToStream (l :: ls) = (l ++ ['\n']) ++ linesToStream ls from rfl]

theorem jsTrim_space_cons (n : Str) : jsTrim (' ' :: n) = jsTrim n := by
  rw [jsTrim, jsTrim, List.dropWhile_cons_of_pos (by decide)]

theorem lookupKey_removeKey (k : String) (st : List (String × String)) :
    lookupKey k (removeKey k st) = none := by
  rw [lookupKey, removeKey]
  rw [List.find?_eq_none.mpr]
  · rfl
  · intro kv hkv
    have := (List.mem_filter.mp hkv).2
    simpa using this

theorem lookupKey_clearRelated (st : List (String × String)) :
    lookupKey "code-project" (clearRelated st) = none := by
  rw [lookupKey, clearRelated]
  rw [List.find?_eq_none.mpr]
  · rfl
  · intro kv hkv
    have hnk : relatedKey kv.1 = false := by
      simpa using (List.mem_filter.mp hkv).2
    intro he
    rw [decide_eq_true_eq] at he
    rw [he] at hnk
    exact absurd hnk (by decide)

theorem runStream_failure (chunks : List Str) (m : String) (rest : List StreamEvent) :
    ∀ s : DemuxState,
      runStream s (chunks.map StreamEvent.chunk ++ StreamEvent.failure m :: rest)
        = (chunks.foldl processChunk s, some (errorText m)) := by
  induction chunks with
  | nil => intro s; rfl
  | cons c cs ih =>
    intro s
    rw [List.map_cons, List.cons_append, runStream, List.foldl_cons]
    exact ih (processChunk s c)

/-! ## Claim theorems -/

/-- C1: for every sequence of text chunks, feeding the chunks one at a time
to the stream demultiplexer (at arbitrary split points, including mid-line
and inside a marker) produces exactly the same final state — in particular
the same File Set, with the same records, names, contents and order — as
feeding the whole concatenation as one single chunk.  Proved without any
well-formedness assumption, so it covers every well-formed stream. -/
theorem chunk_invariance (files0 : List FileData) (chunks : List Str) :
    demux files0 chunks = demux files0 [chunks.flatten] := by
  unfold demux
  rw [foldl_processChunk_flatten chunks _ (by simp [initDemux])]
  rfl

/-- C2: demultiplexing the single chunk
`'>>>FILE: a.txt\nhello\nworld\n>>>FILE: b.txt\nfoo\n'` from an empty File
Set yields exactly the records `a.txt` (content `hello\nworld\n`) then
`b.txt` (content `foo\n`), in that order; in general a marker for an unseen
name appends its record at the end of the File Set (first-marker-seen
order) and a routed line is appended at the end of the current file's
content (in-order concatenation). -/
theorem demux_example_order :
    (demux [] [exampleStream]).files =
      [{ fileName := "a.txt".data, content := "hello\nworld\n".data, ftype := FileType.file, path := [] },
       { fileName := "b.txt".data, content := "foo\n".data, ftype := FileType.file, path := [] }] ∧
    (∀ s line n, markerTok.isPrefixOf line → jsTrim (line.drop markerTok.length) = n → n ≠ [] →
      s.files.any (fun f => f.fileName = n) = false →
      (processLine s line).files = s.files ++ [mkFileData n]) ∧
    (∀ s line c, markerTok.isPrefixOf line = false → s.currentFileName = some c →
      (processLine s line).files = appendToFile s.files c (line ++ ['\n'])) := by
  refine ⟨by decide, ?_, ?_⟩
  · intro s line n hm hn hne hnew
    rw [processLine]
    simp only [hm, if_pos, hn, if_neg hne, hnew]
    simp [hne, hnew]
  · intro s line c hm hc
    rw [processLine]
    simp [hm, hc]

theorem demux_example_order_witness :
    (processLine { files := [], currentFileName := none, buffer := [] } ">>>FILE: c.css".data).files
      = ([] : List FileData) ++ [mkFileData "c.css".data] :=
  demux_example_order.2.1 _ _ _ (by decide) rfl (by decide) (by decide)

/-- C3: a marker line naming a file that already exists in the File Set
creates no second record and leaves every file's content unchanged (the
whole File Set is untouched); its only effect is to re-select that file as
the current target. -/
theorem duplicate_marker_noop (s : DemuxState) (line n : Str)
    (hm : markerTok.isPrefixOf line) (hn : jsTrim (line.drop markerTok.length) = n)
    (hne : n ≠ []) (hmem : s.files.any (fun f => f.fileName = n) = true) :
    processLine s line = { s with currentFileName := some n } := by
  rw [processLine]
  simp [hm, hn, hne, hmem]

theorem duplicate_marker_noop_witness :
    processLine { files := [mkFileData "a.txt".data], currentFileName := none, buffer := [] }
        ">>>FILE: a.txt".data
      = { files := [mkFileData "a.txt".data], currentFileName := some "a.txt".data, buffer := [] } :=
  duplicate_marker_noop _ _ _ (by decide) rfl (by decide) (by decide)

/-- C4: at end of stream a non-empty leftover partial line (no trailing
newline) with a current target file is appended verbatim to that file's
content, with no newline invented; and during streaming every complete
non-marker line routed to a file is appended as the line plus exactly one
`'\n'`. -/
theorem leftover_verbatim :
    (∀ s c, s.currentFileName = some c → s.buffer ≠ [] →
      (finishStream s).files = appendToFile s.files c s.buffer) ∧
    (∀ s line c, markerTok.isPrefixOf line = false → s.currentFileName = some c →
      (processLine s line).files = appendToFile s.files c (line ++ ['\n'])) := by
  constructor
  · intro s c hc hb
    rw [finishStream, hc]
    simp [List.length_pos, hb]
  · intro s line c hm hc
    rw [processLine]
    simp [hm, hc]

theorem leftover_verbatim_witness :
    (finishStream ⟨[mkFileData "a.txt".data], some "a.txt".data, "tail".data⟩).files
      = appendToFile [mkFileData "a.txt".data] "a.txt".data "tail".data :=
  leftover_verbatim.1 _ _ rfl (by decide)

/-- C5: a complete non-marker line processed while no marker has yet
selected a current target file is discarded entirely: the state is
unchanged, so nothing is appended anywhere and no record is created. -/
theorem preamble_dropped (s : DemuxState) (line : Str)
    (hm : markerTok.isPrefixOf line = false) (hc : s.currentFileName = none) :
    processLine s line = s := by
  rw [processLine]
  simp [hm, hc]

theorem preamble_dropped_witness :
    processLine { files := [], currentFileName := none, buffer := [] } "preamble text".data
      = { files := [], currentFileName := none, buffer := [] } :=
  preamble_dropped _ _ (by decide) rfl

/-- C6: `formatCode` is total (it cannot raise, being a Lean function) and
returns the original content unchanged whenever the extension is
unrecognized, whenever a `.css` file's brace counts differ, whenever the
trimmed content is empty or shorter than 10 characters, and whenever the
underlying pretty-printer fails. -/
theorem formatCode_best_effort (prettierFmt : String → Str → Option Str)
    (fileName content : Str) :
    (getParser fileName = none → formatCode prettierFmt fileName content = content) ∧
    (".css".data.isSuffixOf fileName → content.count '{' ≠ content.count '}' →
      formatCode prettierFmt fileName content = content) ∧
    ((jsTrim content = [] ∨ (jsTrim content).length < 10) →
      formatCode prettierFmt fileName content = content) ∧
    (∀ p, getParser fileName = some p → prettierFmt p content = none →
      formatCode prettierFmt fileName content = content) := by
  refine ⟨?_, ?_, ?_, ?_⟩
  · intro h
    simp [formatCode, h]
  · intro h1 h2
    unfold formatCode
    cases hg : getParser fileName with
    | none => rfl
    | some p => simp [h1, h2]
  · intro h
    unfold formatCode
    cases hg : getParser fileName with
    | none => rfl
    | some p =>
      by_cases hcss : ".css".data.isSuffixOf fileName ∧ content.count '{' ≠ content.count '}'
      · simp [hcss]
      · simp [hcss, h]
  · intro p hg hpf
    unfold formatCode
    rw [hg]
    by_cases hcss : ".css".data.isSuffixOf fileName ∧ content.count '{' ≠ content.count '}'
    · simp [hcss]
    · by_cases hs : jsTrim content = [] ∨ (jsTrim content).length < 10
      · simp [hcss, hs]
      · simp [hcss, hs, hpf]

theorem formatCode_best_effort_witness :
    formatCode (fun _ _ => none) "a.css".data "body \x7b color: red; \x7d".data
      = "body \x7b color: red; \x7d".data :=
  (formatCode_best_effort (fun _ _ => none) "a.css".data
      "body \x7b color: red; \x7d".data).2.2.2 "css" (by decide) rfl

/-- C7 (counterexample to the claim as stated): with the stored value `5`
(not an array) and a second related key `'ai'` present, the loader returns
the empty project but leaves the related key `'ai'` in storage — so "clears
the related persisted storage keys" fails for parseable-but-invalid stored
values, where only `'code-project'` itself is removed. -/
theorem load_validation_counterexample :
    (loadProject (fun _ => Except.ok (JValue.jnum 5)) [("code-project", "raw"), ("ai", "x")]).1 = []
    ∧ ("ai", "x") ∈ (loadProject (fun _ => Except.ok (JValue.jnum 5))
        [("code-project", "raw"), ("ai", "x")]).2
    ∧ relatedKey "ai" = true := by decide

/-- C7 (amended): for a stored value that parses but is not an array, or is
an array with a structurally invalid element detected without throwing, the
loader returns the empty project and removes the `'code-project'` key; when
validation throws (e.g. a `null` element), it returns the empty project and
sweeps every related key; a structurally valid stored array is returned as
the initial File Set.  In every case the loader is total: it never
propagates a throw. -/
theorem load_validation (parseJSON : String → Except Unit JValue)
    (storage : List (String × String)) (saved : String) (v : JValue)
    (hlook : lookupKey "code-project" storage = some saved)
    (hparse : parseJSON saved = Except.ok v) :
    (validateStored v = Except.ok false →
      (loadProject parseJSON storage).1 = [] ∧
      lookupKey "code-project" (loadProject parseJSON storage).2 = none) ∧
    (validateStored v = Except.error () →
      loadProject parseJSON storage = ([], clearRelated storage) ∧
      lookupKey "code-project" (loadProject parseJSON storage).2 = none) ∧
    (validateStored v = Except.ok true →
      (loadProject parseJSON storage).1 = extractStored v) := by
  refine ⟨?_, ?_, ?_⟩
  · intro hv
    simp only [loadProject, hlook, hparse, hv]
    exact ⟨trivial, lookupKey_removeKey _ _⟩
  · intro hv
    simp only [loadProject, hlook, hparse, hv]
    exact ⟨trivial, lookupKey_clearRelated _⟩
  · intro hv
    simp only [loadProject, hlook, hparse, hv]

theorem load_validation_witness :
    (loadProject (fun _ => Except.ok (JValue.jnum 5)) [("code-project", "raw")]).1 = [] ∧
    lookupKey "code-project"
      (loadProject (fun _ => Except.ok (JValue.jnum 5)) [("code-project", "raw")]).2 = none :=
  (load_validation (fun _ => Except.ok (JValue.jnum 5)) [("code-project", "raw")] "raw"
    (JValue.jnum 5) (by decide) rfl).1 rfl

/-- C8: when the generation stream raises after any prefix of chunks, the
demultiplexer stops there: the resulting state is exactly the one built
from the chunks before the error (no rollback, no flush, no further
mutation — later events are ignored, so no retry occurs) and the
user-visible error message is surfaced. -/
theorem stream_error_keeps_partial (files0 : List FileData) (chunks : List Str)
    (m : String) (rest : List StreamEvent) :
    runStream (initDemux files0) (chunks.map StreamEvent.chunk ++ StreamEvent.failure m :: rest)
      = (chunks.foldl processChunk (initDemux files0), some (errorText m)) :=
  runStream_failure chunks m rest _

/-- C9: deleting the currently active file reassigns the active pointer to
an existing remaining file, or to empty when none remain; and the
revalidation effect run on every File Set change leaves the pointer naming
an existing record or empty — never a deleted or unknown name. -/
theorem active_pointer_never_dangling :
    (∀ files active,
      (handleDeleteFile files active active).1.any
          (fun f => f.fileName = (handleDeleteFile files active active).2) = true ∨
      ((handleDeleteFile files active active).1 = []
        ∧ (handleDeleteFile files active active).2 = [])) ∧
    (∀ files active,
      files.any (fun f => f.fileName = revalidateActive files active) = true ∨
      (files = [] ∧ revalidateActive files active = [])) := by
  constructor
  · intro files active
    rw [handleDeleteFile]
    simp only [if_pos rfl]
    cases h : files.filter (fun f => f.fileName ≠ active) with
    | nil => exact Or.inr ⟨rfl, rfl⟩
    | cons f fs =>
      refine Or.inl ?_
      simp [headFileName, List.any_cons]
  · intro files active
    rw [revalidateActive]
    by_cases h : files.any (fun f => f.fileName = active) = true
    · rw [if_pos h]
      exact Or.inl h
    · rw [if_neg h]
      cases files with
      | nil => exact Or.inr ⟨rfl, rfl⟩
      | cons f fs =>
        refine Or.inl ?_
        rw [headFileName]
        simp

/-- C10: starting a generation keeps the existing File Set (all updates
start from the previous files).  A streamed marker naming a pre-existing
record reuses it — the File Set's length is unchanged — and the lines that
follow are appended after the content the record already held, so every
record named `n` ends with its old content followed by the newly streamed
lines. -/
theorem resume_append (files0 : List FileData) (n : Str) (ls : List Str)
    (hmem : files0.any (fun f => f.fileName = n) = true)
    (htrim : jsTrim n = n) (hne : n ≠ []) (hn : '\n' ∉ n)
    (hls : ∀ l ∈ ls, markerTok.isPrefixOf l = false ∧ '\n' ∉ l) :
    (demux files0 [mkMarkerLine n ++ '\n' :: linesToStream ls]).files
        = appendToFile files0 n (linesToStream ls) ∧
    (demux files0 [mkMarkerLine n ++ '\n' :: linesToStream ls]).files.length = files0.length := by
  have hno : '\n' ∉ mkMarkerLine n := by
    rw [mkMarkerLine]
    intro hmm
    rcases List.mem_append.mp hmm with h | h
    · exact absurd h (by decide)
    · rcases List.mem_cons.mp h with h | h
      · exact absurd h (by decide)
      · exact hn h
  have hchunk : extractLines (mkMarkerLine n ++ '\n' :: linesToStream ls)
      = (mkMarkerLine n :: ls, []) := by
    rw [extractLines_line _ _ hno, extractLines_linesToStream ls (fun l hl => (hls l hl).2)]
  have hs1 : processLine (initDemux files0) (mkMarkerLine n)
      = { files := files0, currentFileName := some n, buffer := [] } := by
    rw [processLine, mkMarkerLine]
    have hpre : markerTok.isPrefixOf (markerTok ++ ' ' :: n) = true := by
      rw [List.isPrefixOf_iff_prefix]
      exact List.prefix_append _ _
    simp only [hpre, if_pos, List.drop_left, jsTrim_space_cons, htrim]
    rw [if_pos hne]
    simp [initDemux, hmem]
  have hmain : demux files0 [mkMarkerLine n ++ '\n' :: linesToStream ls]
      = { files := appendToFile files0 n (linesToStream ls), currentFileName := some n,
          buffer := [] } := by
    rw [demux, List.foldl_cons, List.foldl_nil, processChunk]
    rw [show (initDemux files0).buffer ++ (mkMarkerLine n ++ '\n' :: linesToStream ls)
        = mkMarkerLine n ++ '\n' :: linesToStream ls from rfl]
    rw [hchunk, List.foldl_cons, hs1,
      routeAll ls _ n rfl (fun l hl => (hls l hl).1)]
    rfl
  rw [hmain]
  exact ⟨rfl, appendToFile_length _ _ _⟩

theorem resume_append_witness :
    (demux [⟨"a.txt".data, "old\n".data, FileType.file, []⟩]
        [mkMarkerLine "a.txt".data ++ '\n' :: linesToStream ["new".data]]).files
      = appendToFile [⟨"a.txt".data, "old\n".data, FileType.file, []⟩] "a.txt".data
          (linesToStream ["new".data]) :=
  (resume_append [⟨"a.txt".data, "old\n".data, FileType.file, []⟩] "a.txt".data ["new".data]
    (by decide) (by decide) (by decide) (by decide) (by decide)).1

end CodeGen
